import Mathlib

/-!
Verification of the hyperparameter-tuning notebook
(`NeuralNetworkTuningOptimal/hyperparameter_tuning.ipynb`).

The notebook prepares the MNIST dataset (normalisation by 255, reshape to
784-element feature vectors, one-hot label encoding), builds small MLP
models, trains one with an exponential learning-rate decay schedule, and
runs a grid search with 3-fold cross-validation over hyperparameter
candidates.  Numeric data is embedded over `ℚ` (exact rationals) except for
the learning-rate schedule, which uses `ℝ` because the source computes
`np.exp`.  Library operations whose code is not part of the repository
(keras `fit`/`to_categorical`, numpy `reshape`, sklearn `GridSearchCV`) are
modelled from the specification's contracts, as marked in their doc
comments; everything else is translated directly from the notebook cells.
-/

namespace HyperparameterTuning

/-! ### Learning-rate schedule (notebook cells 34–37)

The notebook sets `epochs = 60`, `learning_rate = 0.1`, `decay_rate = 0.1`,
`batch_size = 196`, then defines `exp_decay` and fits
`exponential_decay_model` for 60 epochs with a `LearningRateScheduler`
callback wrapping `exp_decay`. -/

/-- `learning_rate = 0.1  # initial learning rate` (cell 34). -/
def learning_rate : ℝ := 0.1

/-- `decay_rate = 0.1` (cell 34). -/
def decay_rate : ℝ := 0.1

/-- `epochs = 60` (cell 34). -/
def epochs : ℕ := 60

/-- `batch_size = 196` (cell 35). -/
def batch_size : ℕ := 196

/-- `num_classes = 10` (cell 20). -/
def num_classes : ℕ := 10

/-- `def exp_decay(epoch): lrate = learning_rate * np.exp(-decay_rate*epoch)`
(cell 36). -/
noncomputable def exp_decay (epoch : ℕ) : ℝ :=
  learning_rate * Real.exp (-decay_rate * epoch)

/-- Modelled from the spec: keras `fit` with a `LearningRateScheduler`
callback is not part of the repository; per the Trainer contract (§4.3) it
iterates for `epochs` passes and, for each pass `e`, sets the learning rate
to `schedule(e)` and appends one per-epoch record to the History.  We model
the recorded learning-rate column of that History. -/
noncomputable def fitHistoryLR (nEpochs : ℕ) (schedule : ℕ → ℝ) : List ℝ :=
  (List.range nEpochs).map schedule

/-- The History of the exponential-decay run (cell 37):
`exponential_decay_model.fit(..., epochs=60, callbacks=[loss_history, lr_rate], ...)`. -/
noncomputable def exponential_decay_model_history : List ℝ :=
  fitHistoryLR epochs exp_decay

theorem exp_decay_strictAnti {i j : ℕ} (hij : i < j) :
    exp_decay j < exp_decay i := by
  unfold exp_decay learning_rate decay_rate
  have hij' : (i : ℝ) < (j : ℝ) := by exact_mod_cast hij
  have harg : -(0.1 : ℝ) * j < -(0.1 : ℝ) * i := by nlinarith
  have hexp := Real.exp_lt_exp.mpr harg
  nlinarith [Real.exp_pos (-(0.1 : ℝ) * (j : ℝ))]

/-- **C1.** For the 60-epoch scenario run with the exponential decay
schedule (lr0 = 0.1, k = 0.1): the schedule function returns exactly
`0.1 * e^(-0.1*epoch)` for every epoch index, the recorded learning rate in
the History is strictly decreasing epoch-over-epoch, and the History holds
exactly 60 per-epoch records. -/
theorem C1_exp_decay_scenario :
    (∀ e : ℕ, exp_decay e = 0.1 * Real.exp (-0.1 * e)) ∧
    exponential_decay_model_history.length = 60 ∧
    (∀ i : ℕ, i < 60 →
      exponential_decay_model_history.get? i = some (exp_decay i)) ∧
    (∀ i j : ℕ, i < j → exp_decay j < exp_decay i) := by
  refine ⟨fun e => rfl, ?_, ?_, fun i j hij => exp_decay_strictAnti hij⟩
  · simp [exponential_decay_model_history, fitHistoryLR, epochs]
  · intro i hi
    have h1 : (List.range 60).get? i = some i := List.get?_range hi
    simp only [exponential_decay_model_history, fitHistoryLR, epochs]
    rw [List.get?_map, h1]
    rfl

/-- Witness for C1: the hypotheses are satisfiable — at epochs 0 and 1 the
recorded learning rate strictly decreases, and index 5 is a valid History
index. -/
theorem C1_exp_decay_scenario_witness :
    exp_decay 1 < exp_decay 0 ∧
    exponential_decay_model_history.get? 5 = some (exp_decay 5) :=
  ⟨C1_exp_decay_scenario.2.2.2 0 1 (by decide),
   C1_exp_decay_scenario.2.2.1 5 (by decide)⟩

/-! ### Data preparation: normalisation (cell 19)

`x_train, x_test = x_train / 255.0, x_test / 255.0` — pixel values in
[0, 255] are divided by the fixed maximum 255. -/

/-- The per-pixel normalisation `x / 255.0` of cell 19, over exact
rationals. -/
def normalize (x : ℚ) : ℚ := x / 255

/-- Cell 19 applies the division elementwise to every pixel of every
sample. -/
def normalizeDataset (ds : List (List ℚ)) : List (List ℚ) :=
  ds.map (List.map normalize)

/-- **C5.** For every input dataset whose pixel values lie in [0, 255],
dividing by the fixed maximum 255 produces outputs in [0, 1] for every
sample and every pixel. -/
theorem C5_normalization_range (ds : List (List ℚ))
    (h : ∀ img ∈ ds, ∀ x ∈ img, 0 ≤ x ∧ x ≤ 255) :
    ∀ img ∈ normalizeDataset ds, ∀ y ∈ img, 0 ≤ y ∧ y ≤ 1 := by
  intro img hmem y hy
  rcases List.mem_map.mp hmem with ⟨img0, himg0, rfl⟩
  rcases List.mem_map.mp hy with ⟨x, hx, rfl⟩
  rcases h img0 himg0 x hx with ⟨h0, h255⟩
  constructor
  · exact div_nonneg h0 (by norm_num)
  · rw [normalize, div_le_one (by norm_num : (0:ℚ) < 255)]
    exact h255

/-- Witness for C5: a concrete one-sample dataset with boundary pixel
values is normalised into [0, 1]. -/
theorem C5_normalization_range_witness :
    0 ≤ normalize 128 ∧ normalize 128 ≤ 1 :=
  C5_normalization_range [[0, 255, 128]] (by decide)
    (List.map normalize [0, 255, 128]) (List.mem_singleton.mpr rfl)
    (normalize 128) (List.mem_map_of_mem normalize (by norm_num))

/-! ### Data preparation: one-hot label encoding (cell 23)

`y_train = keras.utils.to_categorical(y_train, num_classes)`. -/

/-- Modelled from the spec: `keras.utils.to_categorical` is library code;
per §4.1 it maps each integer class label to a fixed-length one-hot vector
over the known class count (entry 1 at the label's index, 0 elsewhere). -/
def to_categorical (nClasses : ℕ) (y : ℕ) : List ℚ :=
  (List.range nClasses).map (fun i => if i = y then 1 else 0)

/-- Helper for `argmax`: scans the tail, tracking the current position `i`,
the best index so far and the best value so far; a strictly larger value
replaces the best. -/
def argmaxAux : List ℚ → ℕ → ℕ → ℚ → ℕ
  | [], _, best, _ => best
  | x :: xs, i, best, bv =>
      if bv < x then argmaxAux xs (i + 1) i x else argmaxAux xs (i + 1) best bv

/-- Modelled from the spec: `np.argmax` decoding — the index of the first
occurrence of the maximum entry (0 on an empty list). -/
def argmax : List ℚ → ℕ
  | [] => 0
  | x :: xs => argmaxAux xs 1 0 x

theorem argmaxAux_of_le (l : List ℚ) :
    ∀ (i best : ℕ) (bv : ℚ), (∀ x ∈ l, ¬ bv < x) →
      argmaxAux l i best bv = best := by
  induction l with
  | nil => intro i best bv _; rfl
  | cons x xs ih =>
    intro i best bv h
    have hx : ¬ bv < x := h x (List.mem_cons_self x xs)
    simp only [argmaxAux, if_neg hx]
    exact ih _ _ _ fun y hy => h y (List.mem_cons_of_mem x hy)

theorem argmaxAux_onehot (y : ℕ) :
    ∀ (m s best : ℕ), s ≤ y → y < s + m →
      argmaxAux ((List.range' s m).map
        (fun i => if i = y then (1 : ℚ) else 0)) s best 0 = y := by
  intro m
  induction m with
  | zero => intro s best hs hy; omega
  | succ m ih =>
    intro s best hs hy
    rw [List.range'_succ]
    by_cases hsy : s = y
    · subst hsy
      simp only [List.map_cons, if_pos rfl, argmaxAux,
        show (0:ℚ) < 1 by norm_num, if_pos]
      apply argmaxAux_of_le
      intro x hx
      rcases List.mem_map.mp hx with ⟨i, hi, rfl⟩
      have : i ≠ s := by
        have := List.mem_range'_1.mp hi
        omega
      rw [if_neg this]
      norm_num
    · have hs1 : s + 1 ≤ y := by omega
      simp only [List.map_cons, if_neg hsy, argmaxAux, lt_irrefl,
        if_neg (lt_irrefl (0:ℚ))]
      exact ih (s + 1) best hs1 (by omega)

theorem argmax_to_categorical {n y : ℕ} (h : y < n) :
    argmax (to_categorical n y) = y := by
  obtain ⟨m, rfl⟩ : ∃ m, n = m + 1 := ⟨n - 1, by omega⟩
  unfold to_categorical
  rw [List.range_eq_range', List.range'_succ, List.map_cons]
  by_cases h0 : (0 : ℕ) = y
  · subst h0
    simp only [if_pos rfl, argmax]
    apply argmaxAux_of_le
    intro x hx
    rcases List.mem_map.mp hx with ⟨i, hi, rfl⟩
    have : i ≠ 0 := by
      have := List.mem_range'_1.mp hi
      omega
    rw [if_neg this]
    norm_num
  · simp only [if_neg h0, argmax]
    exact argmaxAux_onehot y m 1 0 (by omega) (by omega)

/-- **C4.** For every integer label array whose values lie in
[0, class_count), one-hot encoding followed by argmax decoding recovers
each original label; in particular the encoding is injective on the class
range. -/
theorem C4_one_hot_roundtrip (labels : List ℕ) (n : ℕ)
    (h : ∀ y ∈ labels, y < n) :
    (labels.map (to_categorical n)).map argmax = labels ∧
    (∀ y1 y2, y1 < n → y2 < n →
      to_categorical n y1 = to_categorical n y2 → y1 = y2) := by
  constructor
  · rw [List.map_map]
    calc labels.map (argmax ∘ to_categorical n)
        = labels.map id :=
          List.map_congr_left fun y hy => argmax_to_categorical (h y hy)
      _ = labels := List.map_id labels
  · intro y1 y2 h1 h2 heq
    have := congrArg argmax heq
    rwa [argmax_to_categorical h1, argmax_to_categorical h2] at this

/-- Witness for C4: decoding the encodings of the concrete label array
[2, 0, 9, 1] over 10 classes recovers it. -/
theorem C4_one_hot_roundtrip_witness :
    ([2, 0, 9, 1].map (to_categorical 10)).map argmax = [2, 0, 9, 1] :=
  (C4_one_hot_roundtrip [2, 0, 9, 1] 10 (by decide)).1

/-! ### Data preparation: reshape / flattening (cell 20)

`x_train = x_train.reshape(60000, 784)` and
`x_test = x_test.reshape(10000, 784)`. -/

/-- Total number of scalar elements in a dataset of 2-D images (numpy
`x.size`). -/
def totalElems (ds : List (List (List ℚ))) : ℕ :=
  (ds.map fun img => (img.map List.length).sum).sum

/-- Split a flat list into consecutive chunks of `k` elements (the rows of
the reshaped array, row-major). -/
def chunks (k : ℕ) (l : List ℚ) : List (List ℚ) :=
  if h : k = 0 ∨ l = [] then []
  else l.take k :: chunks k (l.drop k)
termination_by l.length
decreasing_by
  push_neg at h
  simp only [List.length_drop]
  have : 0 < l.length := List.length_pos.mpr h.2
  omega

/-- Modelled from the spec plus numpy's documented `reshape` contract:
`x.reshape(rows, cols)` (cell 20) succeeds iff the total element count of
`x` equals `rows * cols`, and lays the elements out row-major into `rows`
vectors of `cols` elements each; otherwise the call fails. -/
def reshapeTo (rows cols : ℕ) (ds : List (List (List ℚ))) :
    Option (List (List ℚ)) :=
  if totalElems ds = rows * cols then
    some (chunks cols ((ds.map List.flatten).flatten))
  else none

theorem sum_const_nat (l : List ℕ) (c : ℕ) (h : ∀ x ∈ l, x = c) :
    l.sum = l.length * c := by
  induction l with
  | nil => simp
  | cons x xs ih =>
    have hx : x = c := h x (List.mem_cons_self x xs)
    have hxs := ih fun y hy => h y (List.mem_cons_of_mem x hy)
    simp [hx, hxs, Nat.succ_mul, Nat.add_comm]

theorem totalElems_uniform (ds : List (List (List ℚ))) (hpx wpx : ℕ)
    (hshape : ∀ img ∈ ds, img.length = hpx ∧ ∀ row ∈ img, row.length = wpx) :
    totalElems ds = ds.length * (hpx * wpx) := by
  unfold totalElems
  rw [sum_const_nat _ (hpx * wpx), List.length_map]
  intro x hx
  rcases List.mem_map.mp hx with ⟨img, himg, rfl⟩
  rcases hshape img himg with ⟨hlen, hrow⟩
  rw [sum_const_nat _ wpx, List.length_map, hlen]
  intro r hr
  rcases List.mem_map.mp hr with ⟨row, hrowmem, rfl⟩
  exact hrow row hrowmem

theorem chunks_join (k : ℕ) (hk : k ≠ 0) :
    ∀ out : List (List ℚ), (∀ v ∈ out, v.length = k) →
      chunks k out.flatten = out := by
  intro out
  induction out with
  | nil =>
    intro _
    rw [chunks, dif_pos (Or.inr List.flatten_nil)]
  | cons v rest ih =>
    intro h
    have hv : v.length = k := h v (List.mem_cons_self v rest)
    have hvne : v ++ rest.flatten ≠ [] := by
      intro habs
      have : v = [] := List.append_eq_nil.mp habs |>.1
      rw [this] at hv
      exact hk hv.symm
    rw [List.flatten_cons, chunks, dif_neg (by push_neg; exact ⟨hk, hvne⟩)]
    rw [← hv, List.take_left, List.drop_left, hv]
    rw [ih fun u hu => h u (List.mem_cons_of_mem v hu)]

theorem join_get?_of_uniform (w : ℕ) :
    ∀ (rows : List (List ℚ)), (∀ row ∈ rows, row.length = w) →
      ∀ r c, c < w → r < rows.length →
        rows.flatten.get? (r * w + c) = (rows.get? r).bind fun row => row.get? c := by
  intro rows
  induction rows with
  | nil => intro _ r c _ hr; simp at hr
  | cons row rest ih =>
    intro h r c hc hr
    have hrow : row.length = w := h row (List.mem_cons_self row rest)
    cases r with
    | zero =>
      rw [List.flatten_cons, Nat.zero_mul, Nat.zero_add,
        List.get?_append (by rw [hrow]; exact hc)]
      rfl
    | succ r =>
      have harith : (r + 1) * w + c = row.length + (r * w + c) := by
        rw [hrow]; ring
      rw [List.flatten_cons, harith, List.get?_append_right (Nat.le_add_right _ _),
        Nat.add_sub_cancel_left]
      exact ih (fun u hu => h u (List.mem_cons_of_mem row hu)) r c hc
        (Nat.lt_of_succ_lt_succ hr)

/-- **C6.** Flattening the 2-D image arrays into 1-D feature vectors
preserves sample order and total element count: for a dataset of 28×28
samples, the reshape to 784-element rows succeeds and equals the per-sample
row-major flattening, each sample becomes a 784-element vector holding the
same values (entry `r*28 + c` of the flattened sample `i` is pixel `(r, c)`
of input sample `i`), and sample `i` of the output corresponds to sample
`i` of the input. -/
theorem C6_flatten_preserves (ds : List (List (List ℚ)))
    (h : ∀ img ∈ ds, img.length = 28 ∧ ∀ row ∈ img, row.length = 28) :
    ∃ out, reshapeTo ds.length 784 ds = some out ∧
      out = ds.map List.flatten ∧
      out.length = ds.length ∧
      (∀ v ∈ out, v.length = 784) ∧
      (∀ i : ℕ, out.get? i = (ds.get? i).map List.flatten) ∧
      (∀ img ∈ ds, ∀ r c : ℕ, r < 28 → c < 28 →
        (List.flatten img).get? (r * 28 + c) =
          (img.get? r).bind fun row => row.get? c) := by
  have hjoinlen : ∀ v ∈ ds.map List.flatten, v.length = 784 := by
    intro v hv
    rcases List.mem_map.mp hv with ⟨img, himg, rfl⟩
    rcases h img himg with ⟨hlen, hrow⟩
    rw [List.length_flatten, sum_const_nat _ 28, List.length_map, hlen]
    intro x hx
    rcases List.mem_map.mp hx with ⟨row, hrowmem, rfl⟩
    exact hrow row hrowmem
  have htot : totalElems ds = ds.length * 784 :=
    totalElems_uniform ds 28 28 h
  refine ⟨ds.map List.flatten, ?_, rfl, List.length_map _ _, hjoinlen, ?_, ?_⟩
  · rw [reshapeTo, if_pos htot, chunks_join 784 (by norm_num) _ hjoinlen]
  · intro i
    exact List.get?_map List.flatten ds i
  · intro img himg r c hr hc
    rcases h img himg with ⟨hlen, hrow⟩
    exact join_get?_of_uniform 28 img hrow r c hc (by rw [hlen]; exact hr)

/-- Witness for C6: a concrete two-sample dataset of 28×28 images is
flattened into two 784-element vectors in order. -/
theorem C6_flatten_preserves_witness :
    ∃ out,
      reshapeTo
        (List.replicate 2 (List.replicate 28 (List.replicate 28 (0:ℚ)))).length
        784 (List.replicate 2 (List.replicate 28 (List.replicate 28 (0:ℚ)))) =
        some out ∧
      out = (List.replicate 2 (List.replicate 28 (List.replicate 28 (0:ℚ)))).map
        List.flatten ∧
      out.length =
        (List.replicate 2 (List.replicate 28 (List.replicate 28 (0:ℚ)))).length ∧
      (∀ v ∈ out, v.length = 784) ∧
      (∀ i : ℕ, out.get? i =
        ((List.replicate 2 (List.replicate 28 (List.replicate 28 (0:ℚ)))).get?
          i).map List.flatten) ∧
      (∀ img ∈ List.replicate 2 (List.replicate 28 (List.replicate 28 (0:ℚ))),
        ∀ r c : ℕ, r < 28 → c < 28 →
        (List.flatten img).get? (r * 28 + c) =
          (img.get? r).bind fun row => row.get? c) :=
  C6_flatten_preserves _ (by
    intro img himg
    rcases List.mem_replicate.mp himg with ⟨-, rfl⟩
    refine ⟨List.length_replicate _ _, ?_⟩
    intro row hrow
    rcases List.mem_replicate.mp hrow with ⟨-, rfl⟩
    exact List.length_replicate _ _)

/-- Counterexample to **C10** as stated: a dataset of 120000 samples of
1×392 images has neither 60000 samples nor 784 elements per sample, yet
its total element count is 120000·392 = 60000·784, so
`reshape(60000, 784)` succeeds on it (numpy reshape only constrains the
total element count). -/
theorem C10_reshape_counterexample :
    (List.replicate 120000 (List.replicate 1 (List.replicate 392 (0:ℚ)))).length
        = 120000 ∧
    (120000 : ℕ) ≠ 60000 ∧
    ((List.replicate 1 (List.replicate 392 (0:ℚ))).map List.length).sum
        = 392 ∧
    (392 : ℕ) ≠ 784 ∧
    (reshapeTo 60000 784
      (List.replicate 120000
        (List.replicate 1 (List.replicate 392 (0:ℚ))))).isSome = true := by
  have hshape : ∀ img ∈ List.replicate 120000
      (List.replicate 1 (List.replicate 392 (0:ℚ))),
      img.length = 1 ∧ ∀ row ∈ img, row.length = 392 := by
    intro img himg
    rcases List.mem_replicate.mp himg with ⟨-, rfl⟩
    refine ⟨List.length_replicate _ _, ?_⟩
    intro row hrow
    rcases List.mem_replicate.mp hrow with ⟨-, rfl⟩
    exact List.length_replicate _ _
  refine ⟨List.length_replicate _ _, by omega, ?_, by omega, ?_⟩
  · rw [List.map_replicate, List.length_replicate]
    decide
  · have htot : totalElems (List.replicate 120000
        (List.replicate 1 (List.replicate 392 (0:ℚ)))) = 60000 * 784 := by
      rw [totalElems_uniform _ 1 392 hshape, List.length_replicate]
    rw [reshapeTo, if_pos htot]
    rfl

/-- **C10 (amended).** The reshape to shapes (60000, 784) and (10000, 784)
is hard-coded, and succeeds exactly when the dataset's total element count
equals 60000·784 (resp. 10000·784); in particular, a dataset of
784-element samples is reshaped successfully only when it has exactly
60000 (resp. 10000) samples — but a dataset with a different sample count
and a compensating per-sample size also succeeds (see the
counterexample). -/
theorem C10_reshape_hardcoded (ds : List (List (List ℚ))) (hpx wpx : ℕ)
    (hshape : ∀ img ∈ ds, img.length = hpx ∧ ∀ row ∈ img, row.length = wpx) :
    ((reshapeTo 60000 784 ds).isSome ↔
      ds.length * (hpx * wpx) = 60000 * 784) ∧
    ((reshapeTo 10000 784 ds).isSome ↔
      ds.length * (hpx * wpx) = 10000 * 784) ∧
    (hpx * wpx = 784 → ds.length ≠ 60000 → reshapeTo 60000 784 ds = none) ∧
    (hpx * wpx = 784 → ds.length ≠ 10000 → reshapeTo 10000 784 ds = none) := by
  have htot := totalElems_uniform ds hpx wpx hshape
  have key : ∀ r : ℕ, (reshapeTo r 784 ds).isSome ↔
      ds.length * (hpx * wpx) = r * 784 := by
    intro r
    rw [reshapeTo, htot]
    by_cases hc : ds.length * (hpx * wpx) = r * 784
    · rw [if_pos hc]
      simp [hc]
    · rw [if_neg hc]
      simp [hc]
  have keyn : ∀ r : ℕ, hpx * wpx = 784 → ds.length ≠ r →
      reshapeTo r 784 ds = none := by
    intro r hsz hne
    rw [reshapeTo, htot, if_neg]
    rw [hsz]
    intro habs
    exact hne (by omega)
  exact ⟨key 60000, key 10000, keyn 60000, keyn 10000⟩

/-- Witness for C10 (amended): a concrete single 28×28-image dataset (784
elements per sample, sample count 1 ≠ 60000) is rejected by the train
reshape. -/
theorem C10_reshape_hardcoded_witness :
    reshapeTo 60000 784 [List.replicate 28 (List.replicate 28 (0:ℚ))] =
      none :=
  (C10_reshape_hardcoded [List.replicate 28 (List.replicate 28 (0:ℚ))] 28 28
    (by
      intro img himg
      rcases List.mem_singleton.mp himg with rfl
      refine ⟨List.length_replicate _ _, ?_⟩
      intro row hrow
      rcases List.mem_replicate.mp hrow with ⟨-, rfl⟩
      exact List.length_replicate _ _)).2.2.1 (by norm_num) (by decide)

/-! ### Hyperparameter search (cells 53–55 and 62–64)

`GridSearchCV(estimator=model_CV, param_grid=param_grid, cv=3)` over
`param_grid = dict(epochs=epochs, batch_size=batches, init=init_mode)`.
`GridSearchCV` itself is sklearn library code, so the search driver is
modelled from the spec contract `search(config_space, dataset, cv_folds)`
(§4.4).  Hyperparameter values are embedded as rationals; the actual fold
training/evaluation is external, so per-fold scores are supplied as a
function argument. -/

/-- Modelled from the spec: the driver enumerates the full Cartesian
product of the candidate sets, in the fixed iteration order of the input
sets (first hyperparameter outermost). -/
def enumerate : List (String × List ℚ) → List (List (String × ℚ))
  | [] => [[]]
  | p :: rest =>
      (p.2.map fun v => (enumerate rest).map fun tail => (p.1, v) :: tail).flatten

/-- Mean of a list of per-fold scores. -/
def meanScore (l : List ℚ) : ℚ := l.sum / l.length

/-- Variance (the square of the standard deviation) of a list of per-fold
scores; comparing variances orders score lists exactly as comparing
standard deviations does, and stays inside `ℚ`. -/
def varScore (l : List ℚ) : ℚ :=
  ((l.map fun x => (x - meanScore l) ^ 2).sum) / l.length

/-- One row of the per-combination score table: the candidate Configuration
with its aggregate mean and variance over the `cv_folds` fold scores. -/
structure ScoreRecord where
  params : List (String × ℚ)
  mean : ℚ
  var : ℚ
deriving DecidableEq

/-- Modelled from the spec: score one candidate Configuration — evaluate
each of the `cv_folds` folds and aggregate to (mean, variance). -/
def scoreRecordOf (evalScore : List (String × ℚ) → ℕ → ℚ) (cv_folds : ℕ)
    (cand : List (String × ℚ)) : ScoreRecord :=
  let scores := (List.range cv_folds).map (evalScore cand)
  ⟨cand, meanScore scores, varScore scores⟩

/-- Modelled from the spec: `a` strictly precedes `b` when its mean score
is higher, or on equal means when its standard deviation (variance) is
lower. -/
def strictlyBetter (a b : ScoreRecord) : Prop :=
  b.mean < a.mean ∨ (a.mean = b.mean ∧ a.var < b.var)

instance (a b : ScoreRecord) : Decidable (strictlyBetter a b) := by
  unfold strictlyBetter
  infer_instance

/-- One comparison step of the selection fold: a strictly better candidate
replaces the best so far, so ties keep the first-encountered record. -/
def selectStep (best r : ScoreRecord) : ScoreRecord :=
  if strictlyBetter r best then r else best

/-- Modelled from the spec: select the Configuration with the maximum mean
score, ties broken by lowest standard deviation, remaining ties by
first-encountered order. -/
def selectBest : List ScoreRecord → Option ScoreRecord
  | [] => none
  | r :: rs => some (rs.foldl selectStep r)

/-- §7 taxonomy (b): ConfigurationError. -/
inductive ConfigurationError where
  | emptySearchSpace : ConfigurationError
  | tooFewFolds : ConfigurationError
deriving DecidableEq

/-- The best-scoring record plus the full per-combination score table
(§3 Search Result). -/
structure SearchResult where
  table : List ScoreRecord
  best : Option ScoreRecord
deriving DecidableEq

/-- Modelled from the spec: `search(config_space, cv_folds)` — fails fast
on an empty search space or on `cv_folds < 2`; otherwise scores every
combination of the Cartesian product and selects the best. -/
def search (config_space : List (String × List ℚ)) (cv_folds : ℕ)
    (evalScore : List (String × ℚ) → ℕ → ℚ) :
    Except ConfigurationError SearchResult :=
  if config_space = [] then .error .emptySearchSpace
  else if cv_folds < 2 then .error .tooFewFolds
  else
    let table := (enumerate config_space).map (scoreRecordOf evalScore cv_folds)
    .ok ⟨table, selectBest table⟩

theorem enumerate_length (space : List (String × List ℚ)) :
    (enumerate space).length = (space.map fun p => p.2.length).prod := by
  induction space with
  | nil => rfl
  | cons p rest ih =>
    rw [enumerate, List.length_flatten, List.map_map, List.map_cons,
      List.prod_cons, ← ih]
    rw [sum_const_nat _ (enumerate rest).length, List.length_map]
    intro x hx
    rcases List.mem_map.mp hx with ⟨v, _, rfl⟩
    exact List.length_map _ _

/-- **C7.** `search` fails immediately — with a ConfigurationError fatal to
the call, and no score table is produced — when the config_space is empty
(`emptySearchSpace`) or when `cv_folds < 2` (`tooFewFolds`). -/
theorem C7_search_fail_fast (config_space : List (String × List ℚ))
    (cv_folds : ℕ) (evalScore : List (String × ℚ) → ℕ → ℚ)
    (h : config_space = [] ∨ cv_folds < 2) :
    (∃ e : ConfigurationError,
      search config_space cv_folds evalScore = .error e) ∧
    (config_space = [] →
      search config_space cv_folds evalScore = .error .emptySearchSpace) ∧
    (config_space ≠ [] → cv_folds < 2 →
      search config_space cv_folds evalScore = .error .tooFewFolds) := by
  have hempty : config_space = [] →
      search config_space cv_folds evalScore = .error .emptySearchSpace := by
    intro he
    rw [search, if_pos he]
  have hfolds : config_space ≠ [] → cv_folds < 2 →
      search config_space cv_folds evalScore = .error .tooFewFolds := by
    intro hne hcv
    rw [search, if_neg hne, if_pos hcv]
  refine ⟨?_, hempty, hfolds⟩
  rcases h with he | hcv
  · exact ⟨.emptySearchSpace, hempty he⟩
  · by_cases hne : config_space = []
    · exact ⟨.emptySearchSpace, hempty hne⟩
    · exact ⟨.tooFewFolds, hfolds hne hcv⟩

/-- Witness for C7: the empty space and a 1-fold request each produce the
corresponding ConfigurationError. -/
theorem C7_search_fail_fast_witness :
    search [] 3 (fun _ _ => 0) = .error .emptySearchSpace ∧
    search [("init", [1])] 1 (fun _ _ => 0) = .error .tooFewFolds :=
  ⟨(C7_search_fail_fast [] 3 (fun _ _ => 0) (Or.inl rfl)).2.1 rfl,
   (C7_search_fail_fast [("init", [1])] 1 (fun _ _ => 0)
      (Or.inr (by decide))).2.2 (by decide) (by decide)⟩

/-- **C3.** For every nonempty config_space mapping hyperparameter names to
finite candidate sets, `search` enumerates the full Cartesian product
deterministically (the fixed iteration order realised by `enumerate`) and
its score table holds exactly one record per combination: as many records
as the product of the candidate-set sizes — in particular |A| · |B| records
for a space with candidate sets A and B. -/
theorem C3_search_exhaustive (config_space : List (String × List ℚ))
    (cv_folds : ℕ) (evalScore : List (String × ℚ) → ℕ → ℚ)
    (hne : config_space ≠ []) (hcv : 2 ≤ cv_folds) :
    ∃ res, search config_space cv_folds evalScore = .ok res ∧
      res.table.length = (config_space.map fun p => p.2.length).prod ∧
      res.table.map ScoreRecord.params = enumerate config_space ∧
      (∀ (na nb : String) (A B : List ℚ),
        config_space = [(na, A), (nb, B)] →
        res.table.length = A.length * B.length) := by
  have hlen : ((enumerate config_space).map
      (scoreRecordOf evalScore cv_folds)).length =
      (config_space.map fun p => p.2.length).prod := by
    rw [List.length_map, enumerate_length]
  refine ⟨⟨(enumerate config_space).map (scoreRecordOf evalScore cv_folds),
    selectBest ((enumerate config_space).map
      (scoreRecordOf evalScore cv_folds))⟩, ?_, hlen, ?_, ?_⟩
  · rw [search, if_neg hne, if_neg (by omega)]
  · show ((enumerate config_space).map
      (scoreRecordOf evalScore cv_folds)).map ScoreRecord.params =
        enumerate config_space
    rw [List.map_map]
    calc (enumerate config_space).map
          (ScoreRecord.params ∘ scoreRecordOf evalScore cv_folds)
        = (enumerate config_space).map id :=
          List.map_congr_left fun c _ => rfl
      _ = enumerate config_space := List.map_id _
  · intro na nb A B hcs
    rw [hlen, hcs]
    simp

/-- Witness for C3: the concrete two-hyperparameter grid of cell 63
(`batches = [128, 512]`, `epochs = [10, 20]`) yields a 2·2-record table. -/
theorem C3_search_exhaustive_witness :
    ∃ res, search [("batch_size", [128, 512]), ("epochs", [10, 20])] 3
        (fun _ _ => 0) = .ok res ∧
      res.table.length =
        ([("batch_size", [(128:ℚ), 512]), ("epochs", [10, 20])].map
          fun p => p.2.length).prod ∧
      res.table.map ScoreRecord.params =
        enumerate [("batch_size", [128, 512]), ("epochs", [10, 20])] ∧
      (∀ (na nb : String) (A B : List ℚ),
        [("batch_size", [(128:ℚ), 512]), ("epochs", [(10:ℚ), 20])] =
          [(na, A), (nb, B)] →
        res.table.length = A.length * B.length) :=
  C3_search_exhaustive [("batch_size", [128, 512]), ("epochs", [10, 20])] 3
    (fun _ _ => 0) (by decide) (by decide)

theorem range_map_sum_lt (k : ℕ) (f g : ℕ → ℚ)
    (hfg : ∀ i, i < k → f i < g i) (hk : 0 < k) :
    ((List.range k).map f).sum < ((List.range k).map g).sum := by
  induction k with
  | zero => omega
  | succ k ih =>
    rw [List.range_succ, List.map_append, List.map_append, List.sum_append,
      List.sum_append]
    rcases Nat.eq_zero_or_pos k with hk0 | hkpos
    · subst hk0
      simpa using hfg 0 (by omega)
    · have h1 := ih (fun i hi => hfg i (by omega)) hkpos
      have h2 := hfg k (by omega)
      simp only [List.map_cons, List.map_nil, List.sum_cons, List.sum_nil]
      linarith

theorem meanScore_lt (k : ℕ) (hk : 0 < k) (f g : ℕ → ℚ)
    (hfg : ∀ i, i < k → f i < g i) :
    meanScore ((List.range k).map f) < meanScore ((List.range k).map g) := by
  unfold meanScore
  rw [List.length_map, List.length_range, List.length_map, List.length_range]
  have hkq : (0 : ℚ) < k := by exact_mod_cast hk
  exact (div_lt_div_iff_of_pos_right hkq).mpr (range_map_sum_lt k f g hfg hk)

theorem not_strictlyBetter_self (a : ScoreRecord) : ¬ strictlyBetter a a := by
  unfold strictlyBetter
  simp

theorem foldl_selectStep_eq (rstar : ScoreRecord) :
    ∀ (rs : List ScoreRecord) (b : ScoreRecord),
      (b = rstar ∨ b.mean < rstar.mean) →
      (∀ x ∈ rs, x = rstar ∨ x.mean < rstar.mean) →
      (b = rstar ∨ rstar ∈ rs) →
      rs.foldl selectStep b = rstar := by
  intro rs
  induction rs with
  | nil =>
    intro b _ _ hmem
    rcases hmem with h | h
    · exact h
    · exact absurd h (List.not_mem_nil rstar)
  | cons x xs ih =>
    intro b hb hall hmem
    have hx := hall x (List.mem_cons_self x xs)
    have hall' : ∀ u ∈ xs, u = rstar ∨ u.mean < rstar.mean :=
      fun u hu => hall u (List.mem_cons_of_mem x hu)
    rw [List.foldl_cons]
    have hcases : selectStep b x = x ∨ selectStep b x = b := by
      unfold selectStep
      by_cases hsb : strictlyBetter x b
      · exact Or.inl (if_pos hsb)
      · exact Or.inr (if_neg hsb)
    have hb' : selectStep b x = rstar ∨ (selectStep b x).mean < rstar.mean := by
      rcases hcases with hc | hc <;> rw [hc]
      · exact hx
      · exact hb
    have hmem' : selectStep b x = rstar ∨ rstar ∈ xs := by
      rcases hmem with hbr | hmem2
      · left
        rcases hx with hxr | hxm
        · rcases hcases with hc | hc <;> rw [hc]
          · exact hxr
          · exact hbr
        · have hnb : ¬ strictlyBetter x b := by
            unfold strictlyBetter
            rw [hbr]
            push_neg
            exact ⟨le_of_lt hxm, fun heq => absurd heq (ne_of_lt hxm)⟩
          rw [selectStep, if_neg hnb]
          exact hbr
      · rcases List.mem_cons.mp hmem2 with hrx | hrxs
        · left
          rcases hb with hbr | hbm
          · rcases hcases with hc | hc <;> rw [hc]
            · exact hrx.symm
            · exact hbr
          · have hsb : strictlyBetter x b := by
              unfold strictlyBetter
              rw [← hrx]
              exact Or.inl hbm
            rw [selectStep, if_pos hsb]
            exact hrx.symm
        · exact Or.inr hrxs
    exact ih (selectStep b x) hb' hall' hmem'

/-- **C2.** `search` selects as best the Configuration with the maximum
mean cross-validation score (ties broken by lower variance, i.e. lower
standard deviation, then by first-encountered enumeration order — the
`selectStep` fold keeps the incumbent on full ties); in particular, for
synthetic scores in which one enumerated Configuration scores strictly
higher on every fold than every other Configuration, `search` returns that
Configuration as best. -/
theorem C2_search_selects_best (config_space : List (String × List ℚ))
    (cv_folds : ℕ) (evalScore : List (String × ℚ) → ℕ → ℚ)
    (cstar : List (String × ℚ))
    (hne : config_space ≠ []) (hcv : 2 ≤ cv_folds)
    (hmem : cstar ∈ enumerate config_space)
    (hdom : ∀ cand ∈ enumerate config_space, cand ≠ cstar →
      ∀ fold, fold < cv_folds → evalScore cand fold < evalScore cstar fold) :
    (∃ res, search config_space cv_folds evalScore = .ok res ∧
      res.best = some (scoreRecordOf evalScore cv_folds cstar) ∧
      res.best.map ScoreRecord.params = some cstar) ∧
    (∀ a b : ScoreRecord, a.mean = b.mean → b.var < a.var →
      selectBest [a, b] = some b) ∧
    (∀ a b : ScoreRecord, a.mean = b.mean → a.var = b.var →
      selectBest [a, b] = some a) := by
  have htie1 : ∀ a b : ScoreRecord, a.mean = b.mean → b.var < a.var →
      selectBest [a, b] = some b := by
    intro a b hm hv
    show some (selectStep a b) = some b
    have hsb : strictlyBetter b a := by
      unfold strictlyBetter
      exact Or.inr ⟨hm.symm, hv⟩
    rw [selectStep, if_pos hsb]
  have htie2 : ∀ a b : ScoreRecord, a.mean = b.mean → a.var = b.var →
      selectBest [a, b] = some a := by
    intro a b hm hv
    show some (selectStep a b) = some a
    rw [selectStep, if_neg]
    unfold strictlyBetter
    push_neg
    exact ⟨le_of_eq hm.symm, fun _ => le_of_eq hv⟩
  refine ⟨?_, htie1, htie2⟩
  have hkpos : 0 < cv_folds := by omega
  set rstar := scoreRecordOf evalScore cv_folds cstar with hrstar
  set table := (enumerate config_space).map (scoreRecordOf evalScore cv_folds)
    with htable
  have hdomtab : ∀ x ∈ table, x = rstar ∨ x.mean < rstar.mean := by
    intro x hxmem
    rcases List.mem_map.mp hxmem with ⟨cand, hcand, rfl⟩
    by_cases hcc : cand = cstar
    · subst hcc
      exact Or.inl rfl
    · refine Or.inr ?_
      exact meanScore_lt cv_folds hkpos (evalScore cand) (evalScore cstar)
        (hdom cand hcand hcc)
  have hrmem : rstar ∈ table := List.mem_map_of_mem _ hmem
  have hsel : selectBest table = some rstar := by
    cases htab : table with
    | nil =>
      rw [htab] at hrmem
      exact absurd hrmem (List.not_mem_nil rstar)
    | cons t ts =>
      rw [selectBest]
      rw [htab] at hdomtab hrmem
      have ht := hdomtab t (List.mem_cons_self t ts)
      have hts : ∀ u ∈ ts, u = rstar ∨ u.mean < rstar.mean :=
        fun u hu => hdomtab u (List.mem_cons_of_mem t hu)
      have hloc : t = rstar ∨ rstar ∈ ts := by
        rcases List.mem_cons.mp hrmem with hk | hk
        · exact Or.inl hk.symm
        · exact Or.inr hk
      rw [foldl_selectStep_eq rstar ts t ht hts hloc]
  refine ⟨⟨table, selectBest table⟩, ?_, ?_, ?_⟩
  · rw [search, if_neg hne, if_neg (by omega)]
  · exact hsel
  · rw [hsel]
    rfl

/-- Witness for C2: over the one-hyperparameter space
`init ∈ {0, 1}` with 2 folds and synthetic scores giving the candidate
`init = 1` the strictly higher score 1 on every fold, search returns
`init = 1` as best. -/
theorem C2_search_selects_best_witness :
    (∃ res, search [("init", [0, 1])] 2
        (fun c _ => if c = [("init", 1)] then 1 else 0) = .ok res ∧
      res.best = some (scoreRecordOf
        (fun c _ => if c = [("init", 1)] then 1 else 0) 2 [("init", 1)]) ∧
      res.best.map ScoreRecord.params = some [("init", 1)]) ∧
    (∀ a b : ScoreRecord, a.mean = b.mean → b.var < a.var →
      selectBest [a, b] = some b) ∧
    (∀ a b : ScoreRecord, a.mean = b.mean → a.var = b.var →
      selectBest [a, b] = some a) :=
  C2_search_selects_best [("init", [0, 1])] 2
    (fun c _ => if c = [("init", 1)] then 1 else 0) [("init", 1)]
    (by decide) (by decide) (by decide) (by decide)

/-! ### Model persistence (cell 59)

`model.to_json()` writes the structured topology description,
`model.save_weights` writes the binary weights blob, and
`model_from_json` + `load_weights` rebuild the model. -/

/-- One dense layer of the persisted model: its name, activation, weight
matrix (one row per output unit) and bias vector. -/
structure Layer where
  name : String
  activation : String
  weights : List (List ℚ)
  bias : List ℚ
deriving DecidableEq

/-- A sequential model as persisted: an ordered list of layers. -/
structure NNModel where
  layers : List Layer
deriving DecidableEq

/-- The structured topology description written by `model.to_json`
(cell 59): each layer's name, activation and output width. -/
def topologyOf (m : NNModel) : List (String × String × ℕ) :=
  m.layers.map fun l => (l.name, l.activation, l.bias.length)

/-- The weights blob written by `model.save_weights` (cell 59): parameters
keyed by layer name. -/
def weightsBlobOf (m : NNModel) : List (String × (List (List ℚ) × List ℚ)) :=
  m.layers.map fun l => (l.name, (l.weights, l.bias))

/-- Modelled from the spec: `save` emits the two-part serialisation —
topology description plus weights blob keyed by layer name (§6). -/
def saveModel (m : NNModel) :
    List (String × String × ℕ) × List (String × (List (List ℚ) × List ℚ)) :=
  (topologyOf m, weightsBlobOf m)

/-- Modelled from the spec: `load` (= `model_from_json` followed by
`load_weights`, cell 59) rebuilds each layer of the topology description,
fetching its parameters from the blob by layer name; a missing entry or a
width mismatch is a PersistenceError (`none`). -/
def loadModel
    (data : List (String × String × ℕ) ×
      List (String × (List (List ℚ) × List ℚ))) : Option NNModel :=
  (data.1.mapM fun t : String × String × ℕ =>
    match data.2.lookup t.1 with
    | some wb =>
        if wb.2.length = t.2.2 then
          some (⟨t.1, t.2.1, wb.1, wb.2⟩ : Layer)
        else none
    | none => none).map NNModel.mk

/-- Modelled from the spec: activation application for prediction — `relu`
clamps negatives to zero; other activation names pass values through (the
round-trip claim only needs that equal layer parameters give equal
predictions). -/
def applyActivation (aname : String) (v : List ℚ) : List ℚ :=
  if aname = "relu" then v.map fun x => max x 0 else v

/-- Dot product of two equally long vectors. -/
def dotProduct (xs ws : List ℚ) : ℚ :=
  (List.zipWith (fun a b => a * b) xs ws).sum

/-- One dense layer forward step: `activation(W·x + b)`. -/
def layerForward (l : Layer) (x : List ℚ) : List ℚ :=
  applyActivation l.activation
    (List.zipWith (fun row b => dotProduct row x + b) l.weights l.bias)

/-- Model prediction: fold the layers over the probe input. -/
def predict (m : NNModel) (x : List ℚ) : List ℚ :=
  m.layers.foldl (fun acc l => layerForward l acc) x

theorem lookup_weightsBlob (ls : List Layer)
    (hnd : (ls.map Layer.name).Nodup) :
    ∀ l ∈ ls, (ls.map fun u => (u.name, (u.weights, u.bias))).lookup l.name =
      some (l.weights, l.bias) := by
  induction ls with
  | nil => intro l hl; exact absurd hl (List.not_mem_nil l)
  | cons u rest ih =>
    intro l hl
    rw [List.map_cons, List.nodup_cons] at hnd
    rcases List.mem_cons.mp hl with rfl | hl'
    · simp [List.lookup]
    · have hne : l.name ≠ u.name := by
        intro habs
        exact hnd.1 (habs ▸ List.mem_map_of_mem Layer.name hl')
      have hbeq : (l.name == u.name) = false := beq_eq_false_iff_ne.mpr hne
      rw [List.map_cons]
      simp only [List.lookup, hbeq]
      exact ih hnd.2 l hl'

theorem loadModel_saveModel (m : NNModel)
    (hnames : (m.layers.map Layer.name).Nodup) :
    loadModel (saveModel m) = some m := by
  have hlook := lookup_weightsBlob m.layers hnames
  have key : ∀ ls : List Layer,
      (∀ l ∈ ls, (weightsBlobOf m).lookup l.name = some (l.weights, l.bias)) →
      (ls.map fun l => (l.name, l.activation, l.bias.length)).mapM
        (fun t : String × String × ℕ =>
        match (weightsBlobOf m).lookup t.1 with
        | some wb =>
            if wb.2.length = t.2.2 then
              some (⟨t.1, t.2.1, wb.1, wb.2⟩ : Layer)
            else none
        | none => none) = some ls := by
    intro ls
    induction ls with
    | nil => intro _; rfl
    | cons l rest ih =>
      intro hall
      rw [List.map_cons, List.mapM_cons]
      rw [hall l (List.mem_cons_self l rest)]
      simp only [if_pos rfl]
      rw [ih fun u hu => hall u (List.mem_cons_of_mem l hu)]
      rfl
  show (((topologyOf m).mapM fun t : String × String × ℕ =>
      match (weightsBlobOf m).lookup t.1 with
      | some wb =>
          if wb.2.length = t.2.2 then
            some (⟨t.1, t.2.1, wb.1, wb.2⟩ : Layer)
          else none
      | none => none).map NNModel.mk) = some m
  rw [topologyOf, key m.layers (fun l hl => hlook l hl)]
  rfl

/-- **C8.** Model persistence round-trip: for every model whose layer names
are distinct (as keras layer names are), loading the saved pair (topology
description, weights blob keyed by layer name) yields a model whose
predictions on every probe input are exactly equal to — hence within any
numeric tolerance of — the original model's predictions. -/
theorem C8_persistence_roundtrip (m : NNModel)
    (hnames : (m.layers.map Layer.name).Nodup) :
    ∃ m2, loadModel (saveModel m) = some m2 ∧
      ∀ probe : List ℚ, predict m2 probe = predict m probe :=
  ⟨m, loadModel_saveModel m hnames, fun _ => rfl⟩

/-- Witness for C8: a concrete two-layer model round-trips and predicts
identically on the probe input `[1, 2]`. -/
theorem C8_persistence_roundtrip_witness :
    ∃ m2, loadModel (saveModel (NNModel.mk
        [⟨"dense_1", "relu", [[1, 0], [0, 1]], [0, 1]⟩,
         ⟨"dense_2", "softmax", [[1, 1]], [3]⟩])) = some m2 ∧
      ∀ probe : List ℚ, predict m2 probe = predict (NNModel.mk
        [⟨"dense_1", "relu", [[1, 0], [0, 1]], [0, 1]⟩,
         ⟨"dense_2", "softmax", [[1, 1]], [3]⟩]) probe :=
  C8_persistence_roundtrip _ (by decide)

/-! ### Model Builder (cells 53–54 and 62–63)

`create_model` / `create_model_2` build a fresh Sequential model —
Dense(64, input_dim=784, kernel_initializer=init, relu) → Dropout(0.1) →
Dense(64, init, relu) → Dense(10, init, softmax) — and compile it.  The
keras initializers draw the initial weights from the process RNG seeded by
`numpy.random.seed(seed)` (cells 54/63); that RNG is library code, so the
drawn values are modelled from the spec by an explicit seeded generator,
threaded as a parameter exactly as §9 prescribes. -/

/-- The hyperparameters `create_model_2` (cell 62) accepts:
`optimizer='rmsprop', init='glorot_uniform'`. -/
structure BuildConfig where
  optimizer : String
  init : String
deriving DecidableEq

/-- Modelled from the spec: one step of the seeded pseudo-random generator
standing in for the framework RNG (a linear congruential generator). -/
def lcgNext (s : ℕ) : ℕ := (1103515245 * s + 12345) % 2147483648

/-- Modelled from the spec: the parameter at index `idx` drawn from the
generator seeded with `seed`, squashed into [-1, 1]. -/
def initWeight (seed idx : ℕ) : ℚ :=
  ((lcgNext (seed + idx) % 2001 : ℕ) : ℚ) / 1000 - 1

/-- Mixes the initializer name into the seed, so different named
initializers draw different streams. -/
def seedOfConfig (cfg : BuildConfig) (seed : ℕ) : ℕ :=
  cfg.init.foldl (fun acc c => acc * 31 + c.toNat) seed

/-- One freshly initialised dense layer: a `rows × cols` weight matrix and
`rows` biases drawn from the seeded generator starting at `offset`. -/
def mkLayer (lname act : String) (s offset rows cols : ℕ) : Layer :=
  ⟨lname, act,
   (List.range rows).map fun r =>
     (List.range cols).map fun c => initWeight s (offset + r * cols + c),
   (List.range rows).map fun r => initWeight s (offset + rows * cols + r)⟩

/-- `create_model_2` (cell 62) translated: the three dense layers of the
Sequential model with their source widths and activations (Dropout holds no
parameters); initial weight values drawn from the explicit seeded
generator. -/
def create_model_2 (cfg : BuildConfig) (seed : ℕ) : NNModel :=
  ⟨[mkLayer "dense_1" "relu" (seedOfConfig cfg seed) 0 64 784,
    mkLayer "dense_2" "relu" (seedOfConfig cfg seed) (64 * 785) 64 64,
    mkLayer "dense_3" "softmax" (seedOfConfig cfg seed)
      (64 * 785 + 64 * 65) 10 64]⟩

/-- Modelled from the spec: the ambient process state relevant to repeated
builds is the sequence of models constructed so far; calling `build`
appends a freshly initialised model and reads nothing from the existing
ones. -/
def buildInto (store : List NNModel) (cfg : BuildConfig) (seed : ℕ) :
    List NNModel :=
  store ++ [create_model_2 cfg seed]

/-- **C9.** Model Builder determinism and independence: building with the
same Configuration and the same seed yields identical initial weights
regardless of any ambient state (two calls from arbitrary distinct prior
states produce the same new model, namely the model determined by
configuration and seed alone), and every call returns a fresh predictor
without touching the predictors from earlier calls (the prior store is
preserved unchanged). -/
theorem C9_build_deterministic :
    (∀ (store1 store2 : List NNModel) (cfg : BuildConfig) (seed : ℕ),
      (buildInto store1 cfg seed).getLast? =
        (buildInto store2 cfg seed).getLast?) ∧
    (∀ (store : List NNModel) (cfg : BuildConfig) (seed : ℕ),
      (buildInto store cfg seed).getLast? = some (create_model_2 cfg seed)) ∧
    (∀ (store : List NNModel) (cfg : BuildConfig) (seed : ℕ),
      (buildInto store cfg seed).take store.length = store) := by
  have hlast : ∀ (store : List NNModel) (cfg : BuildConfig) (seed : ℕ),
      (buildInto store cfg seed).getLast? = some (create_model_2 cfg seed) := by
    intro store cfg seed
    rw [buildInto, List.getLast?_concat]
  refine ⟨?_, hlast, ?_⟩
  · intro store1 store2 cfg seed
    rw [hlast store1 cfg seed, hlast store2 cfg seed]
  · intro store cfg seed
    rw [buildInto, List.take_left]

end HyperparameterTuning
